import Mathlib

/-!
# kim: translation of a build configuration into a buildkit solve request

A shallow embedding of `pkg/client/image/build.go` (type `Build` and its
methods `Do`, `frontendAttrs`, `localDirs`, `progress`, `defaultExporter`) and
of `pkg/cli/command/image/tag/tag.go` (method `Run` of `CommandSpec`).

Modelling conventions

* A Go `string` is a `List Char` (`Str`).  Every string operation the program
  performs (concatenation, comparison, search for the ASCII separators `=` and
  `,`) acts on code points exactly as it acts on UTF-8 code units.
* A Go `map[string]string` is an association list with unique keys
  (`GoMap`); `m[k] = v` is `GoMap.assign`, a read of `m[k]` is `GoMap.lookup`.
* A run-time panic (index out of range) is the result `none`.
* Functions of other packages that the program calls and whose text is not
  part of these sources (`filepath.Base`, `filepath.Dir`,
  `reference.ParseNormalizedNamed`) are fields of `Lib`; the results of the
  calls into the outside world made by `Do` (`console.ConsoleFromFile`,
  `Client.Solve`, `progressui.DisplaySolveStatus`) are fields of `World`.
* `strings.SplitN`, `strings.Join`, `strings.Index` (Go standard library) are
  embedded from their Go definitions.
-/

namespace Kim

/-- Go `string`. -/
abbrev Str := List Char

/-- Go `error` value (non-nil); `Option GoError` is an `error` that may be nil. -/
structure GoError where
  msg : Str
deriving DecidableEq, Repr

/-! ## Go maps -/

/-- Go `map[string]string`: association list, keys unique, in first-insertion order. -/
abbrev GoMap := List (Str × Str)

/-- Read `m[k]` with presence flag (`v, ok := m[k]`). -/
def GoMap.lookup : GoMap → Str → Option Str
  | [], _ => none
  | (k', v) :: rest, k => if k' = k then some v else GoMap.lookup rest k

/-- Write `m[k] = v`: overwrite the entry of `k` when there is one, add it otherwise. -/
def GoMap.assign : GoMap → Str → Str → GoMap
  | [], k, v => [(k, v)]
  | (k', v') :: rest, k, v =>
    if k' = k then (k', v) :: rest else (k', v') :: GoMap.assign rest k v

/-- The number of entries of the association list with the key `k`. -/
def GoMap.occurrences : GoMap → Str → Nat
  | [], _ => 0
  | (k', _) :: rest, k => (if k' = k then 1 else 0) + GoMap.occurrences rest k

/-! ## Package `strings` -/

/-- Go `strings.Index(s, sep)`: offset of the first occurrence of `sep` in `s`;
`none` stands for Go's `-1`. -/
def Index : Str → Str → Option Nat
  | [], sep => if sep = [] then some 0 else none
  | c :: t, sep =>
    if sep.isPrefixOf (c :: t) then some 0 else (Index t sep).map (· + 1)

/-- Go `strings.explode(s, n)` for `n ≥ 0`: up to `n` pieces, one character each
except the last, which holds the remainder. -/
def explode (s : Str) (n : Nat) : List Str :=
  let n := if n > s.length then s.length else n
  if n = 0 then [] else (s.take (n - 1)).map (fun c => [c]) ++ [s.drop (n - 1)]

/-- The `for i < n` loop of Go `strings.genSplit` (with `sepSave = 0`): the
first argument counts the iterations that are left. -/
def genSplitLoop (sep : Str) : Nat → Str → List Str
  | 0, s => [s]
  | k + 1, s =>
    match Index s sep with
    | none => [s]
    | some m => s.take m :: genSplitLoop sep k (s.drop (m + sep.length))

/-- Go `strings.SplitN(s, sep, n)`, that is `genSplit(s, sep, 0, n)`, for a
count `n ≥ 0` (the program passes `n = 2`). -/
def SplitN (s sep : Str) (n : Nat) : List Str :=
  if n = 0 then []
  else if sep = [] then explode s n
  else
    let n := if n > s.length + 1 then s.length + 1 else n
    genSplitLoop sep (n - 1) s

/-- Go `strings.Join(elems, sep)`. -/
def Join : List Str → Str → Str
  | [], _ => []
  | [a], _ => a
  | a :: b :: rest, sep => a ++ sep ++ Join (b :: rest) sep

/-! ## The build configuration -/

/-- The `Build` struct of `build.go`. -/
structure Build where
  AddHost : List Str
  BuildArg : List Str
  File : Str
  Label : List Str
  Progress : Str
  Tag : List Str
  Target : Str
  Pull : Bool
deriving DecidableEq, Repr

/-- Functions of imported packages used by the translation. -/
structure Lib where
  /-- Go `filepath.Base`. -/
  Base : Str → Str
  /-- Go `filepath.Dir`. -/
  Dir : Str → Str
  /-- Go `reference.ParseNormalizedNamed` followed by `ref.String()` on success. -/
  ParseNormalizedNamed : Str → Except GoError Str

/-- Body of the two `for ... range` loops of `frontendAttrs`: `pfx` is the
format string of `fmt.Sprintf` without its `%s` (`build-arg:` or `label:`).
The index expression `p[0]` panics on an empty slice. -/
def attrStep (pfx : Str) (m : GoMap) (b : Str) : Option GoMap :=
  let p := SplitN b "=".toList 2
  match p[0]? with
  | none => none
  | some p0 =>
    let k := pfx ++ p0
    let v := Join (p.drop 1) "=".toList
    some (GoMap.assign m k v)

/-- Method `func (s *Build) frontendAttrs() map[string]string`. -/
def frontendAttrs (lib : Lib) (s : Build) : Option GoMap := do
  -- --target
  let m : GoMap := [("target".toList, s.Target)]
  -- --build-arg
  let m ← s.BuildArg.foldlM (attrStep "build-arg:".toList) m
  -- --label
  let m ← s.Label.foldlM (attrStep "label:".toList) m
  -- --add-host
  let h := Join s.AddHost ",".toList
  let m := if h ≠ [] then GoMap.assign m "add-hosts".toList h else m
  -- --file
  let m :=
    if s.File = [] then GoMap.assign m "filename".toList "Dockerfile".toList
    else GoMap.assign m "filename".toList (lib.Base s.File)
  -- --pull
  let m := if s.Pull then GoMap.assign m "image-resolve-mode".toList "pull".toList else m
  return m

/-- Method `func (s *Build) localDirs(path string) map[string]string`. -/
def localDirs (lib : Lib) (s : Build) (path : Str) : GoMap :=
  let m : GoMap := [("context".toList, path)]
  if s.File = [] then GoMap.assign m "dockerfile".toList path
  else GoMap.assign m "dockerfile".toList (lib.Dir s.File)

/-! ## Export entries -/

/-- The struct `buildkit.ExportEntry` (fields `Type`, here `Type_`, and `Attrs`). -/
structure ExportEntry where
  Type_ : Str
  Attrs : GoMap
deriving DecidableEq, Repr

/-- The constant `buildkit.ExporterImage`. -/
def ExporterImage : Str := "image".toList

/-- Body of `for i, tag := range tags` in `defaultExporter`, run at index `i`
on the current content of the slice: on a parse error the warning is logged
and the loop continues, otherwise element `i` is overwritten. -/
def tagStep (lib : Lib) (tags : List Str) (i : Nat) : List Str :=
  match tags[i]? with
  | none => tags
  | some tag =>
    match lib.ParseNormalizedNamed tag with
    | .error _ => tags
    | .ok ref => tags.set i ref

/-- Method `func (s *Build) defaultExporter() []buildkit.ExportEntry`.  The slice
`tags := s.Tag[:]` shares its backing array with `s.Tag`, so the writes
`tags[i] = ...` are writes to `s.Tag`: the receiver after the call is returned
next to the result.  (`logrus.Warnf` only writes to the log.) -/
def defaultExporter (lib : Lib) (s : Build) : List ExportEntry × Build :=
  let exp : ExportEntry := { Type_ := ExporterImage, Attrs := [] }
  if s.Tag.length > 0 then
    let tags := (List.range s.Tag.length).foldl (tagStep lib) s.Tag
    let attrs := GoMap.assign exp.Attrs "name".toList (Join tags ",".toList)
    let attrs := GoMap.assign attrs "name-canonical".toList []
    ([{ exp with Attrs := attrs }], { s with Tag := tags })
  else
    ([exp], s)

/-! ## Progress relay and orchestration -/

/-- Handle of `console.Console`. -/
structure Console where
  fd : Nat
deriving DecidableEq, Repr

/-- Go `chan *buildkit.SolveStatus` as created by `make`: its capacity. -/
structure Chan where
  cap : Nat
deriving DecidableEq, Repr

/-- Go `errgroup.Group`: the outcomes of the functions started with `Go`, in
start order. -/
structure ErrGroup where
  tasks : List (Option GoError)
deriving DecidableEq, Repr

/-- Go `(*errgroup.Group).Go`: start one function; `outcome` is what it returns. -/
def ErrGroup.Go (g : ErrGroup) (outcome : Option GoError) : ErrGroup :=
  { tasks := g.tasks ++ [outcome] }

/-- Go `(*errgroup.Group).Wait`: the first non-nil error of the started
functions, nil when there is none. -/
def ErrGroup.Wait (g : ErrGroup) : Option GoError :=
  g.tasks.findSome? id

/-- Element of `[]session.Attachable`. -/
inductive Attachable where
  | dockerAuthProvider
deriving DecidableEq, Repr

/-- The struct `buildkit.SolveOpt`, the fields that `Do` sets. -/
structure SolveOpt where
  Frontend : Str
  FrontendAttrs : GoMap
  LocalDirs : GoMap
  Session : List Attachable
  Exports : List ExportEntry
deriving DecidableEq, Repr

/-- Results of the calls `Do` makes outside the package. -/
structure World where
  /-- Go `console.ConsoleFromFile(os.Stderr)`. -/
  ConsoleFromFile : Except GoError Console
  /-- The error result of `bkc.Solve(ctx, nil, options, ch)`. -/
  Solve : SolveOpt → Option Chan → Option GoError
  /-- The result of `progressui.DisplaySolveStatus(ctx, "", c, os.Stdout, ch)`. -/
  DisplaySolveStatus : Option Console → Option GoError

/-- Method `func (s *Build) progress(group *errgroup.Group) chan *buildkit.SolveStatus`:
the returned channel (`none` is the nil channel) and the group afterwards. -/
def progress (w : World) (s : Build) (group : ErrGroup) : Option Chan × ErrGroup :=
  if s.Progress = "none".toList then (none, group)
  else
    let c : Option Console :=
      if s.Progress = "plain".toList then none
      else
        match w.ConsoleFromFile with
        | .error _ => none
        | .ok c => some c
    let ch : Chan := { cap := 1 }
    (some ch, group.Go (w.DisplaySolveStatus c))

/-- What one run of `Do` did: the options handed to `Solve`, the progress
channel handed to it, the error group, the receiver afterwards, whether
`eg.Wait()` was called before the return, and the returned `error`. -/
structure DoRun where
  options : SolveOpt
  statusCh : Option Chan
  group : ErrGroup
  build : Build
  waited : Bool
  err : Option GoError

/-- The options literal of `Do` followed by the assignment of `options.Exports`
under `if len(s.Tag) > 0`, with the receiver afterwards. -/
def Do.options (lib : Lib) (s : Build) (path : Str) : Option (SolveOpt × Build) :=
  match frontendAttrs lib s with
  | none => none
  | some attrs =>
    let options : SolveOpt :=
      { Frontend := "dockerfile.v0".toList
        FrontendAttrs := attrs
        LocalDirs := localDirs lib s path
        Session := [Attachable.dockerAuthProvider]
        Exports := [] }
    if s.Tag.length > 0 then
      let r := defaultExporter lib s
      some ({ options with Exports := r.1 }, r.2)
    else
      some (options, s)

/-- Method `func (s *Build) Do(ctx, k8s, path) error`: the function literal that `Do`
passes to `do.Control`, run with the buildkit client that `do.Control`
(package `pkg/client/do`) supplies. -/
def Do (lib : Lib) (w : World) (s : Build) (path : Str) : Option DoRun :=
  match Do.options lib s path with
  | none => none
  | some (options, s1) =>
    let eg : ErrGroup := { tasks := [] }
    let (ch, eg) := progress w s1 eg
    match w.Solve options ch with
    | some err =>
      some { options := options, statusCh := ch, group := eg, build := s1,
             waited := false, err := some err }
    | none =>
      match eg.Wait with
      | some err =>
        some { options := options, statusCh := ch, group := eg, build := s1,
               waited := true, err := some err }
      | none =>
        some { options := options, statusCh := ch, group := eg, build := s1,
               waited := true, err := none }

/-! ## The `tag` command (`pkg/cli/command/image/tag/tag.go`) -/

/-- Handle of `*client.Interface`. -/
structure ClientInterface where
  id : Nat
deriving DecidableEq, Repr

/-- Results of the calls `Run` makes outside its package. -/
structure TagWorld where
  /-- Go `client.DefaultConfig.Interface()`. -/
  Interface : Except GoError ClientInterface
  /-- The error result of `c.Tag.Do(ctx, k8s, image, tags)` (method of
  `image.Tag`, package `pkg/client/image`). -/
  TagDo : ClientInterface → Str → List Str → Option GoError

/-- What one run of `Run` did: whether `client.DefaultConfig.Interface()` was
called, the arguments of the call of `c.Tag.Do` when there was one, and the
returned `error`. -/
structure RunTrace where
  resolved : Bool
  tagCall : Option (Str × List Str)
  err : Option GoError
deriving DecidableEq, Repr

/-- Method `func (c *CommandSpec) Run(cmd *cobra.Command, args []string) error`;
`errors.New(msg)` is the error with message `msg`, the index expression
`args[0]` panics on an empty slice. -/
def CommandSpec.Run (w : TagWorld) (args : List Str) : Option RunTrace :=
  if args.length < 2 then
    some { resolved := false, tagCall := none,
           err := some { msg := "at least two arguments are required".toList } }
  else
    match w.Interface with
    | .error err => some { resolved := true, tagCall := none, err := some err }
    | .ok k8s =>
      match args[0]? with
      | none => none
      | some src =>
        some { resolved := true, tagCall := some (src, args.drop 1),
               err := w.TagDo k8s src (args.drop 1) }

/-! ## Concrete configurations used in the examples -/

/-- A table of the imported functions for the examples.  `Base` and `Dir` agree
with `filepath.Base` and `filepath.Dir` on `docker/Dockerfile.dev` and on
non-empty names without a slash.  `ParseNormalizedNamed` holds the results of
`reference.ParseNormalizedNamed` on the two tags of the examples:
`myimg:latest` is accepted and normalized to `docker.io/library/myimg:latest`,
`bad ref` is rejected (a reference holds no space); the examples pass it no
other input. -/
def exampleLib : Lib where
  Base := fun p => if p = "docker/Dockerfile.dev".toList then "Dockerfile.dev".toList else p
  Dir := fun p => if p = "docker/Dockerfile.dev".toList then "docker".toList else ".".toList
  ParseNormalizedNamed := fun t =>
    if t = "myimg:latest".toList then .ok "docker.io/library/myimg:latest".toList
    else .error { msg := "invalid reference format".toList }

/-- A world in which the console is unavailable and nothing fails. -/
def quietWorld : World where
  ConsoleFromFile := .error { msg := "provided file is not a console".toList }
  Solve := fun _ _ => none
  DisplaySolveStatus := fun _ => none

/-- A world in which `Solve` fails and the relay reports no error. -/
def failingSolveWorld : World where
  ConsoleFromFile := .error { msg := "provided file is not a console".toList }
  Solve := fun _ _ => some { msg := "failed to solve".toList }
  DisplaySolveStatus := fun _ => none

/-- A world for the `tag` command in which nothing fails. -/
def quietTagWorld : TagWorld where
  Interface := .ok { id := 0 }
  TagDo := fun _ _ _ => none

/-- Scenario 1 of the specification, for a progress mode `mode`. -/
def scenario1 (mode : Str) : Build :=
  { AddHost := [], BuildArg := [], File := [], Label := [], Progress := mode,
    Tag := [], Target := [], Pull := false }

/-- Scenario 2 of the specification: one tag that parses and one that does not. -/
def mixedTags : Build :=
  { scenario1 "auto".toList with Tag := ["myimg:latest".toList, "bad ref".toList] }

/-- A configuration whose only tag does not parse. -/
def onlyBadTag : Build :=
  { scenario1 "auto".toList with Tag := ["bad ref".toList] }

/-- A configuration with the single host mapping `""`. -/
def emptyHost : Build :=
  { scenario1 "auto".toList with AddHost := [[]] }

/-- A configuration with build arguments and labels `k=old`, `k=v1=v2`, `other=1`. -/
def repeatedKey : Build :=
  { scenario1 "auto".toList with
    BuildArg := ["k=old".toList, "k=v1=v2".toList, "other=1".toList]
    Label := ["k=old".toList, "k=v1=v2".toList, "other=1".toList] }

/-- A configuration with build arguments and labels `DEBUG`, `x=1`. -/
def noSeparator : Build :=
  { scenario1 "auto".toList with
    BuildArg := ["DEBUG".toList, "x=1".toList]
    Label := ["DEBUG".toList, "x=1".toList] }

/-! ## Closed forms used in the proofs -/

/-- The text of an entry before its first `=` (the whole entry when it has none). -/
def argKey (b : Str) : Str := b.takeWhile (fun c => c != '=')

/-- The text of an entry after its first `=` (empty when it has none). -/
def argVal (b : Str) : Str := (b.dropWhile (fun c => c != '=')).drop 1

/-- The map after one of the loops of `frontendAttrs` has run over `l`. -/
def assignAll (pfx : Str) (m : GoMap) (l : List Str) : GoMap :=
  l.foldl (fun m b => GoMap.assign m (pfx ++ argKey b) (argVal b)) m

/-- The map that `frontendAttrs` has built when its two loops are done. -/
def loopAttrs (s : Build) : GoMap :=
  assignAll "label:".toList
    (assignAll "build-arg:".toList [("target".toList, s.Target)] s.BuildArg) s.Label

/-- The statements of `frontendAttrs` that follow its two loops. -/
def scalarAttrs (lib : Lib) (s : Build) (m : GoMap) : GoMap :=
  let h := Join s.AddHost ",".toList
  let m := if h ≠ [] then GoMap.assign m "add-hosts".toList h else m
  let m :=
    if s.File = [] then GoMap.assign m "filename".toList "Dockerfile".toList
    else GoMap.assign m "filename".toList (lib.Base s.File)
  if s.Pull then GoMap.assign m "image-resolve-mode".toList "pull".toList else m

/-- What the loop of `defaultExporter` leaves in place of a tag: its normalized
form when the parse succeeds, the tag itself when it fails. -/
def normalizeOrKeep (lib : Lib) (tag : Str) : Str :=
  match lib.ParseNormalizedNamed tag with
  | .error _ => tag
  | .ok ref => ref

/-- The normalized forms of the tags that parse, in order: the tags that do
not parse are left out. -/
def validNormalized (lib : Lib) (tags : List Str) : List Str :=
  tags.filterMap (fun t =>
    match lib.ParseNormalizedNamed t with
    | .error _ => none
    | .ok ref => some ref)

/-- The export list that `Do` puts into its options. -/
def exportsOf (lib : Lib) (s : Build) : List ExportEntry :=
  if s.Tag.length > 0 then (defaultExporter lib s).1 else []

/-! ## Go maps: reads after writes -/

theorem GoMap.lookup_assign_self (m : GoMap) (k v : Str) :
    GoMap.lookup (GoMap.assign m k v) k = some v := by
  induction m with
  | nil => simp [GoMap.assign, GoMap.lookup]
  | cons e rest ih =>
    obtain ⟨k1, v1⟩ := e
    by_cases h : k1 = k
    · simp [GoMap.assign, GoMap.lookup, h]
    · simp [GoMap.assign, GoMap.lookup, h, ih]

theorem GoMap.lookup_assign_ne (m : GoMap) (k1 k v : Str) (h : k1 ≠ k) :
    GoMap.lookup (GoMap.assign m k1 v) k = GoMap.lookup m k := by
  induction m with
  | nil => simp [GoMap.assign, GoMap.lookup, h]
  | cons e rest ih =>
    obtain ⟨k2, v2⟩ := e
    by_cases h2 : k2 = k1
    · subst h2
      simp [GoMap.assign, GoMap.lookup, h]
    · by_cases h3 : k2 = k
      · subst h3
        simp [GoMap.assign, GoMap.lookup, h2]
      · simp [GoMap.assign, GoMap.lookup, h2, h3, ih]

/-! ## Splitting an entry at its first `=` -/

theorem Index_eq (b : Str) :
    Index b ['='] = if '=' ∈ b then some (argKey b).length else none := by
  induction b with
  | nil => simp [Index]
  | cons c t ih =>
    by_cases hc : c = '='
    · subst hc
      simp [Index, argKey, List.isPrefixOf]
    · have hc2 : ¬ ('=' = c) := fun e => hc e.symm
      simp only [Index, List.isPrefixOf, ih]
      by_cases ht : '=' ∈ t
      · simp [hc, hc2, ht, argKey, List.takeWhile_cons]
      · simp [hc, hc2, ht]

theorem take_argKey (b : Str) : b.take (argKey b).length = argKey b := by
  induction b with
  | nil => simp [argKey]
  | cons c t ih =>
    by_cases hc : c = '='
    · simp [argKey, List.takeWhile_cons, hc]
    · simp only [argKey] at ih
      simp [argKey, List.takeWhile_cons, hc, ih]

theorem drop_argKey (b : Str) : b.drop ((argKey b).length + 1) = argVal b := by
  induction b with
  | nil => simp [argKey, argVal]
  | cons c t ih =>
    by_cases hc : c = '='
    · simp [argKey, argVal, List.takeWhile_cons, List.dropWhile_cons, hc]
    · simp only [argKey, argVal] at ih
      simp [argKey, argVal, List.takeWhile_cons, List.dropWhile_cons, hc, ih]

theorem SplitN_eq (b : Str) :
    SplitN b "=".toList 2 = if '=' ∈ b then [argKey b, argVal b] else [b] := by
  cases b with
  | nil => simp [SplitN, genSplitLoop]
  | cons c t =>
    have h1 : SplitN (c :: t) "=".toList 2 = genSplitLoop ['='] 1 (c :: t) := by
      have hlen : ¬ (t.length + 1 + 1 < 2) := by omega
      simp [SplitN, hlen]
    rw [h1]
    simp only [genSplitLoop, Index_eq]
    by_cases h : '=' ∈ c :: t
    · simp only [h, if_true]
      have h2 := take_argKey (c :: t)
      have h3 := drop_argKey (c :: t)
      simp only [List.length_singleton]
      rw [h2, h3]
    · simp only [h, if_false]

theorem head_SplitN (b : Str) : (SplitN b "=".toList 2).head? = some (argKey b) := by
  rw [SplitN_eq]
  by_cases h : '=' ∈ b
  · simp [h]
  · have hall : ∀ c ∈ b, (c != '=') = true := by
      intro c hc
      have : c ≠ '=' := fun e => h (e ▸ hc)
      simpa using this
    simp [h, argKey, List.takeWhile_eq_self_iff.mpr hall]

theorem argKey_of_not_mem (b : Str) (h : '=' ∉ b) : argKey b = b := by
  have hall : ∀ c ∈ b, (c != '=') = true := by
    intro c hc
    have : c ≠ '=' := fun e => h (e ▸ hc)
    simpa using this
  simp [argKey, List.takeWhile_eq_self_iff.mpr hall]

theorem argVal_of_not_mem (b : Str) (h : '=' ∉ b) : argVal b = [] := by
  have hall : ∀ c ∈ b, (c != '=') = true := by
    intro c hc
    have : c ≠ '=' := fun e => h (e ▸ hc)
    simpa using this
  simp [argVal, List.dropWhile_eq_nil_iff.mpr hall]

theorem argKey_append (k v : Str) (h : '=' ∉ k) : argKey (k ++ '=' :: v) = k := by
  induction k with
  | nil => simp [argKey, List.takeWhile_cons]
  | cons c t ih =>
    have hc : c ≠ '=' := fun e => h (by simp [e])
    have ht : '=' ∉ t := fun e => h (by simp [e])
    have := ih ht
    simp only [argKey] at this
    simp [argKey, List.takeWhile_cons, hc, this]

theorem argVal_append (k v : Str) (h : '=' ∉ k) : argVal (k ++ '=' :: v) = v := by
  induction k with
  | nil => simp [argVal, List.dropWhile_cons]
  | cons c t ih =>
    have hc : c ≠ '=' := fun e => h (by simp [e])
    have ht : '=' ∉ t := fun e => h (by simp [e])
    have := ih ht
    simp only [argVal] at this
    simp [argVal, List.dropWhile_cons, hc, this]

/-- One pass of a loop body of `frontendAttrs` never panics and writes the
entry `pfx ++ argKey b ↦ argVal b`. -/
theorem attrStep_eq (pfx : Str) (m : GoMap) (b : Str) :
    attrStep pfx m b = some (GoMap.assign m (pfx ++ argKey b) (argVal b)) := by
  unfold attrStep
  rw [SplitN_eq]
  by_cases h : '=' ∈ b
  · simp [h, Join]
  · simp [h, Join, argKey_of_not_mem b h, argVal_of_not_mem b h]

theorem foldlM_attrStep (pfx : Str) (l : List Str) (m : GoMap) :
    l.foldlM (attrStep pfx) m = some (assignAll pfx m l) := by
  induction l generalizing m with
  | nil => simp [assignAll]
  | cons b rest ih =>
    simp only [List.foldlM_cons, attrStep_eq, assignAll, List.foldl_cons]
    exact ih _

/-- Closed form of `frontendAttrs`: it always returns, and what. -/
theorem frontendAttrs_eq (lib : Lib) (s : Build) :
    frontendAttrs lib s = some (scalarAttrs lib s
      (assignAll "label:".toList
        (assignAll "build-arg:".toList [("target".toList, s.Target)] s.BuildArg) s.Label)) := by
  simp [frontendAttrs, foldlM_attrStep, scalarAttrs]

theorem lookup_assignAll_other (pfx key : Str) (l : List Str) (m : GoMap)
    (h : ∀ b ∈ l, pfx ++ argKey b ≠ key) :
    GoMap.lookup (assignAll pfx m l) key = GoMap.lookup m key := by
  induction l generalizing m with
  | nil => simp [assignAll]
  | cons b rest ih =>
    have hb : pfx ++ argKey b ≠ key := h b (by simp)
    have hrest : ∀ b ∈ rest, pfx ++ argKey b ≠ key := fun x hx => h x (by simp [hx])
    have := ih (GoMap.assign m (pfx ++ argKey b) (argVal b)) hrest
    simp only [assignAll, List.foldl_cons] at this ⊢
    rw [this, GoMap.lookup_assign_ne _ _ _ _ hb]

theorem lookup_assignAll_last (pfx : Str) (init rest : List Str) (e : Str) (m : GoMap)
    (h : ∀ b ∈ rest, argKey b ≠ argKey e) :
    GoMap.lookup (assignAll pfx m (init ++ e :: rest)) (pfx ++ argKey e) = some (argVal e) := by
  have hsplit : assignAll pfx m (init ++ e :: rest) =
      assignAll pfx (GoMap.assign (assignAll pfx m init) (pfx ++ argKey e) (argVal e)) rest := by
    simp [assignAll, List.foldl_append]
  rw [hsplit, lookup_assignAll_other]
  · exact GoMap.lookup_assign_self _ _ _
  · intro b hb e1
    exact h b hb (List.append_cancel_left e1)

/-- Two strings that start with different characters differ. -/
theorem append_ne_of_head (a c : Char) (as x cs : Str) (h : a ≠ c) :
    (a :: as) ++ x ≠ c :: cs := by
  intro e
  simp at e
  exact h e.1

/-! ## Reads of the map built by `frontendAttrs` -/

theorem frontendAttrs_eq_loopAttrs (lib : Lib) (s : Build) :
    frontendAttrs lib s = some (scalarAttrs lib s (loopAttrs s)) :=
  frontendAttrs_eq lib s

theorem lookup_loopAttrs_other (s : Build) (key : Str)
    (h1 : ∀ x : Str, "build-arg:".toList ++ x ≠ key)
    (h2 : ∀ x : Str, "label:".toList ++ x ≠ key) :
    GoMap.lookup (loopAttrs s) key = GoMap.lookup [("target".toList, s.Target)] key := by
  unfold loopAttrs
  rw [lookup_assignAll_other _ _ _ _ (fun b _ => h2 (argKey b)),
    lookup_assignAll_other _ _ _ _ (fun b _ => h1 (argKey b))]

theorem lookup_scalarAttrs_other (lib : Lib) (s : Build) (m : GoMap) (key : Str)
    (h1 : "add-hosts".toList ≠ key) (h2 : "filename".toList ≠ key)
    (h3 : "image-resolve-mode".toList ≠ key) :
    GoMap.lookup (scalarAttrs lib s m) key = GoMap.lookup m key := by
  unfold scalarAttrs
  simp only
  split_ifs <;> simp only [GoMap.lookup_assign_ne _ _ _ _ h1, GoMap.lookup_assign_ne _ _ _ _ h2,
    GoMap.lookup_assign_ne _ _ _ _ h3]

theorem lookup_scalarAttrs_filename (lib : Lib) (s : Build) (m : GoMap) :
    GoMap.lookup (scalarAttrs lib s m) "filename".toList =
      some (if s.File = [] then "Dockerfile".toList else lib.Base s.File) := by
  have hne : "image-resolve-mode".toList ≠ "filename".toList := by decide
  unfold scalarAttrs
  simp only
  split_ifs <;> simp only [GoMap.lookup_assign_ne _ _ _ _ hne, GoMap.lookup_assign_self]

theorem lookup_scalarAttrs_addHosts (lib : Lib) (s : Build) (m : GoMap) :
    GoMap.lookup (scalarAttrs lib s m) "add-hosts".toList =
      if Join s.AddHost ",".toList = [] then GoMap.lookup m "add-hosts".toList
      else some (Join s.AddHost ",".toList) := by
  have h2 : "filename".toList ≠ "add-hosts".toList := by decide
  have h3 : "image-resolve-mode".toList ≠ "add-hosts".toList := by decide
  unfold scalarAttrs
  simp only
  split_ifs <;> simp_all only [GoMap.lookup_assign_ne _ _ _ _ h2, GoMap.lookup_assign_ne _ _ _ _ h3,
    GoMap.lookup_assign_self, ne_eq, not_true_eq_false, not_false_eq_true]

theorem Join_eq_nil_iff (l : List Str) (sep : Str) (hsep : sep ≠ []) :
    Join l sep = [] ↔ l = [] ∨ l = [[]] := by
  match l with
  | [] => simp [Join]
  | [a] => simp [Join]
  | a :: b :: rest => simp [Join, hsep]

/-- The entry written for a build argument survives the rest of `frontendAttrs`
when no later build argument has its key. -/
theorem lookup_buildArg (lib : Lib) (s : Build) (e : Str) (init rest : List Str)
    (hs : s.BuildArg = init ++ e :: rest) (h : ∀ b ∈ rest, argKey b ≠ argKey e) :
    GoMap.lookup (scalarAttrs lib s (loopAttrs s)) ("build-arg:".toList ++ argKey e) =
      some (argVal e) := by
  rw [lookup_scalarAttrs_other _ _ _ _ (by simp) (by simp) (by simp)]
  unfold loopAttrs
  rw [lookup_assignAll_other _ _ _ _ (fun b _ => by simp), hs]
  exact lookup_assignAll_last _ _ _ _ _ h

/-- The entry written for a label survives the rest of `frontendAttrs` when no
later label has its key. -/
theorem lookup_label (lib : Lib) (s : Build) (e : Str) (init rest : List Str)
    (hs : s.Label = init ++ e :: rest) (h : ∀ b ∈ rest, argKey b ≠ argKey e) :
    GoMap.lookup (scalarAttrs lib s (loopAttrs s)) ("label:".toList ++ argKey e) =
      some (argVal e) := by
  rw [lookup_scalarAttrs_other _ _ _ _ (by simp) (by simp) (by simp)]
  unfold loopAttrs
  rw [hs]
  exact lookup_assignAll_last _ _ _ _ _ h

/-! ## The loop of `defaultExporter` -/

theorem tagLoop_getElem? (lib : Lib) (tags : List Str) (k i : Nat) :
    ((List.range k).foldl (tagStep lib) tags)[i]? =
      if i < k then (tags[i]?).map (normalizeOrKeep lib) else tags[i]? := by
  induction k generalizing i with
  | zero => simp
  | succ k ih =>
    rw [List.range_succ, List.foldl_append]
    simp only [List.foldl_cons, List.foldl_nil]
    generalize hL : (List.range k).foldl (tagStep lib) tags = L at ih
    have hk : L[k]? = tags[k]? := by simpa using ih k
    unfold tagStep
    rw [hk]
    cases htag : tags[k]? with
    | none =>
      simp only
      rw [ih i]
      by_cases h1 : i < k
      · have : i < k + 1 := by omega
        simp [h1, this]
      · by_cases h2 : i = k
        · subst h2
          simp [htag]
        · have : ¬ i < k + 1 := by omega
          simp [h1, this]
    | some tag =>
      simp only
      cases hp : lib.ParseNormalizedNamed tag with
      | error err =>
        simp only
        rw [ih i]
        by_cases h1 : i < k
        · have : i < k + 1 := by omega
          simp [h1, this]
        · by_cases h2 : i = k
          · subst h2
            simp [htag, normalizeOrKeep, hp]
          · have : ¬ i < k + 1 := by omega
            simp [h1, this]
      | ok ref =>
        simp only
        rw [List.getElem?_set]
        by_cases h2 : k = i
        · subst h2
          have hlt : k < L.length := by
            by_contra hge
            have : L[k]? = none := List.getElem?_eq_none (by omega)
            rw [hk, htag] at this
            cases this
          simp [hlt, htag, normalizeOrKeep, hp]
        · rw [if_neg h2, ih i]
          by_cases h1 : i < k
          · have : i < k + 1 := by omega
            simp [h1, this]
          · have : ¬ i < k + 1 := by omega
            simp [h1, this]

/-- The loop of `defaultExporter` replaces every tag by `normalizeOrKeep` of it. -/
theorem tagLoop_eq_map (lib : Lib) (tags : List Str) :
    (List.range tags.length).foldl (tagStep lib) tags = tags.map (normalizeOrKeep lib) := by
  apply List.ext_getElem?
  intro i
  rw [tagLoop_getElem?]
  by_cases h : i < tags.length
  · simp [h]
  · have h1 : tags[i]? = none := List.getElem?_eq_none (by omega)
    simp [h, h1]

/-- Closed form of `defaultExporter` on a non-empty tag list. -/
theorem defaultExporter_eq (lib : Lib) (s : Build) (h : s.Tag ≠ []) :
    defaultExporter lib s =
      ([{ Type_ := ExporterImage,
          Attrs := [("name".toList, Join (s.Tag.map (normalizeOrKeep lib)) ",".toList),
                    ("name-canonical".toList, [])] }],
       { s with Tag := s.Tag.map (normalizeOrKeep lib) }) := by
  have hlen : s.Tag.length > 0 := List.length_pos.mpr h
  simp [defaultExporter, hlen, tagLoop_eq_map, GoMap.assign]

theorem map_normalizeOrKeep_invalid (lib : Lib) (tags : List Str)
    (h : ∀ t ∈ tags, ∃ err, lib.ParseNormalizedNamed t = .error err) :
    tags.map (normalizeOrKeep lib) = tags := by
  induction tags with
  | nil => rfl
  | cons t rest ih =>
    obtain ⟨err, herr⟩ := h t (by simp)
    have := ih (fun x hx => h x (by simp [hx]))
    simp [normalizeOrKeep, herr, this]

theorem map_normalizeOrKeep_valid (lib : Lib) (tags : List Str)
    (h : ∀ t ∈ tags, ∃ ref, lib.ParseNormalizedNamed t = .ok ref) :
    tags.map (normalizeOrKeep lib) = validNormalized lib tags := by
  induction tags with
  | nil => rfl
  | cons t rest ih =>
    obtain ⟨ref, href⟩ := h t (by simp)
    have := ih (fun x hx => h x (by simp [hx]))
    simp only [validNormalized] at this
    simp [normalizeOrKeep, validNormalized, href, this]

/-! ## The run of `Do` -/

/-- Waiting on a group with one started function gives that function's result. -/
theorem ErrGroup.Wait_Go_empty (o : Option GoError) :
    (ErrGroup.Go { tasks := [] } o).Wait = o := by
  cases o <;> rfl

theorem Do_options_eq (lib : Lib) (s : Build) (path : Str) :
    ∃ s1, Do.options lib s path =
      some ({ Frontend := "dockerfile.v0".toList
              FrontendAttrs := scalarAttrs lib s (loopAttrs s)
              LocalDirs := localDirs lib s path
              Session := [Attachable.dockerAuthProvider]
              Exports := exportsOf lib s }, s1) ∧ s1.Progress = s.Progress := by
  unfold Do.options exportsOf
  rw [frontendAttrs_eq_loopAttrs]
  by_cases h : s.Tag.length > 0
  · refine ⟨(defaultExporter lib s).2, by simp [h], ?_⟩
    simp [defaultExporter, h]
  · exact ⟨s, by simp [h], rfl⟩

/-- Closed form of `Do`: it always returns; the options it hands to `Solve`
and the error it returns. -/
theorem Do_eq (lib : Lib) (w : World) (s : Build) (path : Str) :
    ∃ r, Do lib w s path = some r ∧
      r.options.Exports = exportsOf lib s ∧
      r.options.FrontendAttrs = scalarAttrs lib s (loopAttrs s) ∧
      r.options.LocalDirs = localDirs lib s path ∧
      r.err = (match w.Solve r.options r.statusCh with
        | some err => some err
        | none => r.group.Wait) ∧
      (r.statusCh, r.group) = progress w s { tasks := [] } := by
  obtain ⟨s1, h1, hp⟩ := Do_options_eq lib s path
  have hprog : progress w s1 { tasks := [] } = progress w s { tasks := [] } := by
    simp [progress, hp]
  unfold Do
  rw [h1]
  simp only
  rw [hprog]
  cases hs : w.Solve _ (progress w s { tasks := [] }).1 with
  | some err => exact ⟨_, rfl, rfl, rfl, rfl, by simp only [hs], rfl⟩
  | none =>
    cases hw : (progress w s { tasks := [] }).2.Wait with
    | some err => exact ⟨_, rfl, rfl, rfl, rfl, by simp only [hs, hw], rfl⟩
    | none => exact ⟨_, rfl, rfl, rfl, rfl, by simp only [hs, hw], rfl⟩

/-! ## The claims -/

/-- C1, as stated, fails: with the tags `myimg:latest` (accepted) and `bad ref`
(rejected), the `name` attribute is `docker.io/library/myimg:latest,bad ref`,
which is not the comma-join `docker.io/library/myimg:latest` of the normalized
valid tags: the rejected tag is in it. -/
theorem rejected_tag_stays_in_name :
    exampleLib.ParseNormalizedNamed "bad ref".toList
        = .error { msg := "invalid reference format".toList } ∧
      (defaultExporter exampleLib mixedTags).1.map
          (fun e => GoMap.lookup e.Attrs "name".toList)
        = [some "docker.io/library/myimg:latest,bad ref".toList] ∧
      Join (validNormalized exampleLib mixedTags.Tag) ",".toList
        = "docker.io/library/myimg:latest".toList ∧
      (defaultExporter exampleLib mixedTags).1.map
          (fun e => GoMap.lookup e.Attrs "name".toList)
        ≠ [some (Join (validNormalized exampleLib mixedTags.Tag) ",".toList)] :=
  ⟨rfl, by decide, by decide, by decide⟩

/-- C1, amended: for a non-empty tag list `defaultExporter` returns one entry
whose `name` attribute is the comma-join, in original order, of one item per
tag, the normalized form of a tag that parses and the tag itself, unchanged,
for a tag that does not parse; when every tag parses this is the comma-join of
the normalized valid tags. -/
theorem defaultExporter_name (lib : Lib) (s : Build) (h : s.Tag ≠ []) :
    ∃ e, (defaultExporter lib s).1 = [e] ∧
      GoMap.lookup e.Attrs "name".toList
        = some (Join (s.Tag.map (normalizeOrKeep lib)) ",".toList) ∧
      ((∀ t ∈ s.Tag, ∃ ref, lib.ParseNormalizedNamed t = .ok ref) →
        GoMap.lookup e.Attrs "name".toList
          = some (Join (validNormalized lib s.Tag) ",".toList)) := by
  rw [defaultExporter_eq lib s h]
  refine ⟨_, rfl, ?_, ?_⟩
  · simp [GoMap.lookup]
  · intro hall
    rw [← map_normalizeOrKeep_valid lib s.Tag hall]
    simp [GoMap.lookup]

/-- Scenario 2 of the specification as an instance of `defaultExporter_name`. -/
theorem defaultExporter_name_witness :
    mixedTags.Tag ≠ [] ∧
      ∃ e, (defaultExporter exampleLib mixedTags).1 = [e] ∧
        GoMap.lookup e.Attrs "name".toList
          = some (Join (mixedTags.Tag.map (normalizeOrKeep exampleLib)) ",".toList) ∧
        ((∀ t ∈ mixedTags.Tag, ∃ ref, exampleLib.ParseNormalizedNamed t = .ok ref) →
          GoMap.lookup e.Attrs "name".toList
            = some (Join (validNormalized exampleLib mixedTags.Tag) ",".toList)) :=
  ⟨by decide, defaultExporter_name exampleLib mixedTags (by decide)⟩

/-- C2: an entry `k=v` with no `=` in `k` (and any `v`, `=` included) sets
`build-arg:k` to exactly `v` when it is a build argument that no later build
argument shares its key with, and sets `label:k` to exactly `v` when it is a
label that no later label shares its key with. -/
theorem frontendAttrs_splits_at_first_eq (lib : Lib) (s : Build) (k v : Str)
    (init rest : List Str) (hk : '=' ∉ k)
    (hrest : ∀ b ∈ rest, (SplitN b "=".toList 2).head? ≠ some k) :
    (s.BuildArg = init ++ (k ++ '=' :: v) :: rest →
      ∃ m, frontendAttrs lib s = some m ∧
        GoMap.lookup m ("build-arg:".toList ++ k) = some v) ∧
    (s.Label = init ++ (k ++ '=' :: v) :: rest →
      ∃ m, frontendAttrs lib s = some m ∧
        GoMap.lookup m ("label:".toList ++ k) = some v) := by
  have hkey : argKey (k ++ '=' :: v) = k := argKey_append k v hk
  have hval : argVal (k ++ '=' :: v) = v := argVal_append k v hk
  have hlater : ∀ b ∈ rest, argKey b ≠ argKey (k ++ '=' :: v) := by
    intro b hb e
    apply hrest b hb
    rw [head_SplitN, e, hkey]
  constructor
  · intro hs
    refine ⟨_, frontendAttrs_eq_loopAttrs lib s, ?_⟩
    have := lookup_buildArg lib s _ init rest hs hlater
    rwa [hkey, hval] at this
  · intro hs
    refine ⟨_, frontendAttrs_eq_loopAttrs lib s, ?_⟩
    have := lookup_label lib s _ init rest hs hlater
    rwa [hkey, hval] at this

/-- The entry `k=v1=v2`, preceded by `k=old` and followed by `other=1`. -/
theorem frontendAttrs_splits_at_first_eq_witness :
    '=' ∉ "k".toList ∧
      (∀ b ∈ ["other=1".toList], (SplitN b "=".toList 2).head? ≠ some "k".toList) ∧
      (∃ m, frontendAttrs exampleLib repeatedKey = some m ∧
        GoMap.lookup m ("build-arg:".toList ++ "k".toList) = some "v1=v2".toList) ∧
      (∃ m, frontendAttrs exampleLib repeatedKey = some m ∧
        GoMap.lookup m ("label:".toList ++ "k".toList) = some "v1=v2".toList) :=
  ⟨by decide, by decide,
    (frontendAttrs_splits_at_first_eq exampleLib repeatedKey "k".toList "v1=v2".toList
      ["k=old".toList] ["other=1".toList] (by decide) (by decide)).1 rfl,
    (frontendAttrs_splits_at_first_eq exampleLib repeatedKey "k".toList "v1=v2".toList
      ["k=old".toList] ["other=1".toList] (by decide) (by decide)).2 rfl⟩

/-- C3, as stated, fails: the host-mapping list `[""]` is not empty, yet the
map returned by `frontendAttrs` has no key `add-hosts`. -/
theorem addHosts_absent_for_empty_host :
    emptyHost.AddHost ≠ [] ∧
      (frontendAttrs exampleLib emptyHost).map
          (fun m => GoMap.lookup m "add-hosts".toList) = some none := by
  decide

/-- C3, amended: the map returned by `frontendAttrs` lacks the key `add-hosts`
if and only if the comma-join of `AddHost` is the empty string, which is so
exactly when `AddHost` is empty or is the one-element list holding the empty
string; otherwise the key is present and its value is the comma-join of
`AddHost` in order. -/
theorem frontendAttrs_addHosts (lib : Lib) (s : Build) :
    ∃ m, frontendAttrs lib s = some m ∧
      (GoMap.lookup m "add-hosts".toList = none ↔ Join s.AddHost ",".toList = []) ∧
      (Join s.AddHost ",".toList = [] ↔ s.AddHost = [] ∨ s.AddHost = [[]]) ∧
      (Join s.AddHost ",".toList ≠ [] →
        GoMap.lookup m "add-hosts".toList = some (Join s.AddHost ",".toList)) := by
  refine ⟨_, frontendAttrs_eq_loopAttrs lib s, ?_, Join_eq_nil_iff _ _ (by decide), ?_⟩
  · rw [lookup_scalarAttrs_addHosts]
    by_cases h : Join s.AddHost ",".toList = []
    · have hnone : GoMap.lookup [("target".toList, s.Target)] "add-hosts".toList = none := by
        simp [GoMap.lookup]
      rw [if_pos h, lookup_loopAttrs_other s _ (fun x => by simp) (fun x => by simp), hnone]
      exact ⟨fun _ => h, fun _ => rfl⟩
    · rw [if_neg h]
      exact ⟨fun e => Option.noConfusion e, fun e => absurd e h⟩
  · intro h
    rw [lookup_scalarAttrs_addHosts, if_neg h]

/-- C4, as stated, fails: with the single tag `bad ref`, which the normalizer
rejects, the options `Do` hands to `Solve` carry an export entry, and its
`name` attribute is that tag. -/
theorem Do_exports_rejected_tag :
    exampleLib.ParseNormalizedNamed "bad ref".toList
        = .error { msg := "invalid reference format".toList } ∧
      (Do exampleLib quietWorld onlyBadTag "/app".toList).map (fun r => r.options.Exports)
        = some [{ Type_ := "image".toList,
                  Attrs := [("name".toList, "bad ref".toList),
                            ("name-canonical".toList, [])] }] :=
  ⟨rfl, by decide⟩

/-- C4, amended: when the tag list is non-empty and the normalizer accepts none
of its tags, the options `Do` hands to `Solve` carry exactly one export entry,
of the image type, whose `name` attribute is the comma-join of the tags as
given and whose `name-canonical` is empty. -/
theorem Do_exports_all_rejected (lib : Lib) (w : World) (s : Build) (path : Str)
    (hne : s.Tag ≠ [])
    (hrej : ∀ t ∈ s.Tag, ∃ err, lib.ParseNormalizedNamed t = .error err) :
    ∃ r, Do lib w s path = some r ∧
      r.options.Exports =
        [{ Type_ := ExporterImage,
           Attrs := [("name".toList, Join s.Tag ",".toList),
                     ("name-canonical".toList, [])] }] := by
  obtain ⟨r, hr, hexp, -⟩ := Do_eq lib w s path
  refine ⟨r, hr, ?_⟩
  have hlen : s.Tag.length > 0 := List.length_pos.mpr hne
  rw [hexp, exportsOf, if_pos hlen, defaultExporter_eq lib s hne,
    map_normalizeOrKeep_invalid lib s.Tag hrej]

/-- The configuration whose only tag is `bad ref`. -/
theorem Do_exports_all_rejected_witness :
    onlyBadTag.Tag ≠ [] ∧
      ∃ r, Do exampleLib quietWorld onlyBadTag "/app".toList = some r ∧
        r.options.Exports =
          [{ Type_ := ExporterImage,
             Attrs := [("name".toList, Join onlyBadTag.Tag ",".toList),
                       ("name-canonical".toList, [])] }] :=
  ⟨by decide, Do_exports_all_rejected exampleLib quietWorld onlyBadTag "/app".toList
    (by decide) (by
      intro t ht
      have ht1 : t = "bad ref".toList := by simpa [onlyBadTag] using ht
      subst ht1
      exact ⟨_, rfl⟩)⟩

/-- C5: `frontendAttrs` sets `filename` to `filepath.Base(File)` and `localDirs`
sets `dockerfile` to `filepath.Dir(File)` when `File` is not empty; when it is
empty, `filename` is `Dockerfile` and `dockerfile` is the context path. -/
theorem frontendAttrs_filename_localDirs_dockerfile (lib : Lib) (s : Build) (path : Str) :
    (∃ m, frontendAttrs lib s = some m ∧
      GoMap.lookup m "filename".toList
        = some (if s.File = [] then "Dockerfile".toList else lib.Base s.File)) ∧
    GoMap.lookup (localDirs lib s path) "dockerfile".toList
      = some (if s.File = [] then path else lib.Dir s.File) := by
  constructor
  · exact ⟨_, frontendAttrs_eq_loopAttrs lib s, lookup_scalarAttrs_filename lib s _⟩
  · unfold localDirs
    by_cases h : s.File = []
    · simp only [h, if_true]
      exact GoMap.lookup_assign_self _ _ _
    · simp only [h, if_false]
      exact GoMap.lookup_assign_self _ _ _

/-- C6: `Do` returns the error of `Solve` whenever `Solve` fails, whatever the
relay does; when `Solve` succeeds it returns the error of the error group,
which is the one of the relay (`DisplaySolveStatus`) in every progress mode
but `none`, where no relay runs; it returns nil exactly when `Solve` succeeds
and the group reports no error.  The error is handed back as it is. -/
theorem Do_error_precedence (lib : Lib) (w : World) (s : Build) (path : Str) :
    ∃ r, Do lib w s path = some r ∧
      (∀ e, w.Solve r.options r.statusCh = some e → r.err = some e) ∧
      (∀ e, w.Solve r.options r.statusCh = none → r.group.Wait = some e → r.err = some e) ∧
      (r.err = none ↔ w.Solve r.options r.statusCh = none ∧ r.group.Wait = none) ∧
      (s.Progress = "none".toList → r.group.Wait = none) ∧
      (s.Progress ≠ "none".toList → ∃ c, r.group.Wait = w.DisplaySolveStatus c) := by
  obtain ⟨r, hr, -, -, -, herr, hprog⟩ := Do_eq lib w s path
  refine ⟨r, hr, ?_, ?_, ?_, ?_, ?_⟩
  · intro e he
    rw [herr, he]
  · intro e he hw
    rw [herr, he, hw]
  · rw [herr]
    cases hs : w.Solve r.options r.statusCh with
    | some e => simp
    | none => simp
  · intro hp
    have hg : r.group = { tasks := [] } := by
      have := congrArg Prod.snd hprog
      simpa [progress, hp] using this
    rw [hg]
    rfl
  · intro hp
    have hg := congrArg Prod.snd hprog
    simp only [progress, if_neg hp] at hg
    rw [hg]
    exact ⟨_, ErrGroup.Wait_Go_empty _⟩

/-- C7: `frontendAttrs` always returns a map, and an entry `e` without `=` (the
empty string included) sets `build-arg:e` to the empty string when it is a
build argument that no later build argument shares its key with, and `label:e`
to the empty string when it is a label that no later label shares its key
with. -/
theorem frontendAttrs_lenient (lib : Lib) (s : Build) (e : Str)
    (init rest : List Str) (he : '=' ∉ e)
    (hrest : ∀ b ∈ rest, (SplitN b "=".toList 2).head? ≠ some e) :
    (∃ m, frontendAttrs lib s = some m) ∧
    (s.BuildArg = init ++ e :: rest →
      ∃ m, frontendAttrs lib s = some m ∧
        GoMap.lookup m ("build-arg:".toList ++ e) = some []) ∧
    (s.Label = init ++ e :: rest →
      ∃ m, frontendAttrs lib s = some m ∧
        GoMap.lookup m ("label:".toList ++ e) = some []) := by
  have hkey : argKey e = e := argKey_of_not_mem e he
  have hval : argVal e = [] := argVal_of_not_mem e he
  have hlater : ∀ b ∈ rest, argKey b ≠ argKey e := by
    intro b hb h
    apply hrest b hb
    rw [head_SplitN, h, hkey]
  refine ⟨⟨_, frontendAttrs_eq_loopAttrs lib s⟩, ?_, ?_⟩
  · intro hs
    refine ⟨_, frontendAttrs_eq_loopAttrs lib s, ?_⟩
    have := lookup_buildArg lib s e init rest hs hlater
    rwa [hkey, hval] at this
  · intro hs
    refine ⟨_, frontendAttrs_eq_loopAttrs lib s, ?_⟩
    have := lookup_label lib s e init rest hs hlater
    rwa [hkey, hval] at this

/-- The entry `DEBUG` followed by `x=1`. -/
theorem frontendAttrs_lenient_witness :
    '=' ∉ "DEBUG".toList ∧
      (∀ b ∈ ["x=1".toList], (SplitN b "=".toList 2).head? ≠ some "DEBUG".toList) ∧
      (∃ m, frontendAttrs exampleLib noSeparator = some m) ∧
      (∃ m, frontendAttrs exampleLib noSeparator = some m ∧
        GoMap.lookup m ("build-arg:".toList ++ "DEBUG".toList) = some []) ∧
      (∃ m, frontendAttrs exampleLib noSeparator = some m ∧
        GoMap.lookup m ("label:".toList ++ "DEBUG".toList) = some []) :=
  ⟨by decide, by decide,
    (frontendAttrs_lenient exampleLib noSeparator "DEBUG".toList [] ["x=1".toList]
      (by decide) (by decide)).1,
    (frontendAttrs_lenient exampleLib noSeparator "DEBUG".toList [] ["x=1".toList]
      (by decide) (by decide)).2.1 rfl,
    (frontendAttrs_lenient exampleLib noSeparator "DEBUG".toList [] ["x=1".toList]
      (by decide) (by decide)).2.2 rfl⟩

/-- C8: the options `Do` hands to `Solve` carry an export entry if and only if
the tag list is not empty: none for an empty tag list, exactly one otherwise. -/
theorem Do_exports_iff_tags (lib : Lib) (w : World) (s : Build) (path : Str) :
    ∃ r, Do lib w s path = some r ∧
      (r.options.Exports ≠ [] ↔ s.Tag ≠ []) ∧
      (s.Tag = [] → r.options.Exports = []) ∧
      (s.Tag ≠ [] → r.options.Exports.length = 1) := by
  obtain ⟨r, hr, hexp, -⟩ := Do_eq lib w s path
  refine ⟨r, hr, ?_⟩
  rw [hexp]
  by_cases h : s.Tag = []
  · have hlen : ¬ s.Tag.length > 0 := by simp [h]
    simp [exportsOf, hlen, h]
  · have hlen : s.Tag.length > 0 := List.length_pos.mpr h
    simp [exportsOf, hlen, h, defaultExporter_eq lib s h]

/-- C9: in scenario 1 (context `/app`, no file, no target, no build arguments,
labels, host mappings or tags, no pull) `frontendAttrs` is the map with the two
entries `target ↦ ""` and `filename ↦ Dockerfile`, `localDirs` is the map with
the two entries `context ↦ /app` and `dockerfile ↦ /app`, and the options that
`Do` hands to `Solve` hold these maps and no export entry. -/
theorem scenario1_translation (lib : Lib) (w : World) (mode : Str) :
    frontendAttrs lib (scenario1 mode)
      = some [("target".toList, []), ("filename".toList, "Dockerfile".toList)] ∧
    localDirs lib (scenario1 mode) "/app".toList
      = [("context".toList, "/app".toList), ("dockerfile".toList, "/app".toList)] ∧
    ∃ r, Do lib w (scenario1 mode) "/app".toList = some r ∧
      r.options.FrontendAttrs
        = [("target".toList, []), ("filename".toList, "Dockerfile".toList)] ∧
      r.options.LocalDirs
        = [("context".toList, "/app".toList), ("dockerfile".toList, "/app".toList)] ∧
      r.options.Exports = [] := by
  have hattrs : frontendAttrs lib (scenario1 mode)
      = some [("target".toList, []), ("filename".toList, "Dockerfile".toList)] := rfl
  have hdirs : localDirs lib (scenario1 mode) "/app".toList
      = [("context".toList, "/app".toList), ("dockerfile".toList, "/app".toList)] := rfl
  refine ⟨hattrs, hdirs, ?_⟩
  obtain ⟨r, hr, hexp, hfa, hld, -⟩ := Do_eq lib w (scenario1 mode) "/app".toList
  refine ⟨r, hr, ?_, ?_, ?_⟩
  · have h := frontendAttrs_eq_loopAttrs lib (scenario1 mode)
    rw [hattrs] at h
    rw [hfa, ← Option.some.inj h]
  · rw [hld, hdirs]
  · rw [hexp]
    rfl

/-- C10: the map returned by `frontendAttrs` always has the key `target`, and
its value is the `Target` of the configuration, whatever the build arguments,
labels, host mappings, `File` and `Pull` are. -/
theorem frontendAttrs_target (lib : Lib) (s : Build) :
    ∃ m, frontendAttrs lib s = some m ∧
      GoMap.lookup m "target".toList = some s.Target := by
  refine ⟨_, frontendAttrs_eq_loopAttrs lib s, ?_⟩
  rw [lookup_scalarAttrs_other _ _ _ _ (by decide) (by decide) (by decide),
    lookup_loopAttrs_other s _ (fun x => by simp) (fun x => by simp)]
  simp [GoMap.lookup]

/-! ## Origin of the entries of a map, and uniqueness of its keys -/

theorem GoMap.lookup_assign_some (m : GoMap) (k1 v1 k v : Str)
    (h : GoMap.lookup (GoMap.assign m k1 v1) k = some v) :
    (k = k1 ∧ v = v1) ∨ GoMap.lookup m k = some v := by
  by_cases hk : k1 = k
  · subst hk
    rw [GoMap.lookup_assign_self] at h
    exact Or.inl ⟨rfl, (Option.some.inj h).symm⟩
  · rw [GoMap.lookup_assign_ne _ _ _ _ hk] at h
    exact Or.inr h

theorem lookup_assignAll_some (pfx : Str) (l : List Str) (m : GoMap) (k v : Str)
    (h : GoMap.lookup (assignAll pfx m l) k = some v) :
    (∃ b ∈ l, k = pfx ++ argKey b ∧ v = argVal b) ∨ GoMap.lookup m k = some v := by
  induction l generalizing m with
  | nil => exact Or.inr h
  | cons b rest ih =>
    have h1 : GoMap.lookup (assignAll pfx (GoMap.assign m (pfx ++ argKey b) (argVal b)) rest) k
        = some v := h
    rcases ih _ h1 with ⟨x, hx, hkx⟩ | h2
    · exact Or.inl ⟨x, by simp [hx], hkx⟩
    · rcases GoMap.lookup_assign_some _ _ _ _ _ h2 with ⟨e1, e2⟩ | h3
      · exact Or.inl ⟨b, by simp, e1, e2⟩
      · exact Or.inr h3

theorem GoMap.mem_keys_of_lookup (m : GoMap) (k v : Str) (h : GoMap.lookup m k = some v) :
    k ∈ m.map Prod.fst := by
  induction m with
  | nil => simp [GoMap.lookup] at h
  | cons e rest ih =>
    obtain ⟨k1, v1⟩ := e
    by_cases hk : k1 = k
    · simp [hk]
    · simp only [GoMap.lookup, if_neg hk] at h
      simp [ih h]

theorem GoMap.keys_assign (m : GoMap) (k v : Str) :
    (GoMap.assign m k v).map Prod.fst =
      if k ∈ m.map Prod.fst then m.map Prod.fst else m.map Prod.fst ++ [k] := by
  induction m with
  | nil => simp [GoMap.assign]
  | cons e rest ih =>
    obtain ⟨k1, v1⟩ := e
    by_cases hk : k1 = k
    · subst hk
      simp [GoMap.assign]
    · have hk2 : ¬ k = k1 := fun e => hk e.symm
      simp only [GoMap.assign, if_neg hk, List.map_cons, ih, List.mem_cons, hk2, false_or]
      by_cases hmem : k ∈ rest.map Prod.fst
      · simp only [if_pos hmem]
      · simp only [if_neg hmem, List.cons_append]

theorem GoMap.nodup_keys_assign (m : GoMap) (k v : Str) (h : (m.map Prod.fst).Nodup) :
    ((GoMap.assign m k v).map Prod.fst).Nodup := by
  rw [GoMap.keys_assign]
  by_cases hmem : k ∈ m.map Prod.fst
  · rw [if_pos hmem]
    exact h
  · rw [if_neg hmem]
    exact List.Nodup.append h (List.nodup_singleton k) (by
      intro x hx hx2
      rw [List.mem_singleton] at hx2
      exact hmem (hx2 ▸ hx))

theorem nodup_keys_assignAll (pfx : Str) (l : List Str) (m : GoMap)
    (h : (m.map Prod.fst).Nodup) : ((assignAll pfx m l).map Prod.fst).Nodup := by
  induction l generalizing m with
  | nil => exact h
  | cons b rest ih => exact ih _ (GoMap.nodup_keys_assign m _ _ h)

theorem nodup_keys_scalarAttrs (lib : Lib) (s : Build) (m : GoMap)
    (h : (m.map Prod.fst).Nodup) : ((scalarAttrs lib s m).map Prod.fst).Nodup := by
  unfold scalarAttrs
  simp only
  split_ifs <;>
    first
      | exact GoMap.nodup_keys_assign _ _ _ (GoMap.nodup_keys_assign _ _ _
          (GoMap.nodup_keys_assign _ _ _ h))
      | exact GoMap.nodup_keys_assign _ _ _ (GoMap.nodup_keys_assign _ _ _ h)
      | exact GoMap.nodup_keys_assign _ _ _ h

/-- The map returned by `frontendAttrs` has no key twice. -/
theorem nodup_keys_frontendAttrs (lib : Lib) (s : Build) :
    ((scalarAttrs lib s (loopAttrs s)).map Prod.fst).Nodup := by
  apply nodup_keys_scalarAttrs
  unfold loopAttrs
  apply nodup_keys_assignAll
  apply nodup_keys_assignAll
  simp

theorem GoMap.occurrences_eq_zero (m : GoMap) (k : Str) (h : k ∉ m.map Prod.fst) :
    GoMap.occurrences m k = 0 := by
  induction m with
  | nil => rfl
  | cons e rest ih =>
    obtain ⟨k1, v1⟩ := e
    have h1 : ¬ k1 = k := fun e => h (by simp [e])
    have h2 : k ∉ rest.map Prod.fst := fun e => h (by simp [e])
    simp only [GoMap.occurrences, if_neg h1, ih h2]

theorem GoMap.occurrences_eq_one (m : GoMap) (k v : Str) (hn : (m.map Prod.fst).Nodup)
    (h : GoMap.lookup m k = some v) : GoMap.occurrences m k = 1 := by
  induction m with
  | nil => simp [GoMap.lookup] at h
  | cons e rest ih =>
    obtain ⟨k1, v1⟩ := e
    have hn1 : k1 ∉ rest.map Prod.fst ∧ (rest.map Prod.fst).Nodup := by
      simpa using hn
    by_cases hk : k1 = k
    · subst hk
      simp only [GoMap.occurrences, if_true, GoMap.occurrences_eq_zero rest k1 hn1.1]
    · simp only [GoMap.lookup, if_neg hk] at h
      simp only [GoMap.occurrences, if_neg hk, ih hn1.2 h]

theorem Join_tail_SplitN (b : Str) :
    Join ((SplitN b "=".toList 2).drop 1) "=".toList = argVal b := by
  rw [SplitN_eq]
  by_cases h : '=' ∈ b
  · simp [h, Join]
  · simp [h, Join, argVal_of_not_mem b h]

theorem lookup_scalarAttrs_pull (lib : Lib) (s : Build) (m : GoMap) :
    GoMap.lookup (scalarAttrs lib s m) "image-resolve-mode".toList =
      if s.Pull = true then some "pull".toList
      else GoMap.lookup m "image-resolve-mode".toList := by
  have h1 : "add-hosts".toList ≠ "image-resolve-mode".toList := by decide
  have h2 : "filename".toList ≠ "image-resolve-mode".toList := by decide
  unfold scalarAttrs
  simp only
  split_ifs <;> simp only [GoMap.lookup_assign_ne _ _ _ _ h1, GoMap.lookup_assign_ne _ _ _ _ h2,
    GoMap.lookup_assign_self]

theorem lookup_loopAttrs_scalar (s : Build) (key : Str)
    (h1 : ∀ x : Str, "build-arg:".toList ++ x ≠ key)
    (h2 : ∀ x : Str, "label:".toList ++ x ≠ key)
    (h3 : "target".toList ≠ key) :
    GoMap.lookup (loopAttrs s) key = none := by
  rw [lookup_loopAttrs_other s key h1 h2]
  simp only [GoMap.lookup, if_neg h3]

/-! ## The claims, continued -/

/-- C11: the map returned by `frontendAttrs` has the key `image-resolve-mode`
if and only if `Pull` is true, and then its value is `pull`, whatever the
build arguments, labels and host mappings are. -/
theorem frontendAttrs_pull (lib : Lib) (s : Build) :
    ∃ m, frontendAttrs lib s = some m ∧
      GoMap.lookup m "image-resolve-mode".toList
        = (if s.Pull = true then some "pull".toList else none) ∧
      (GoMap.lookup m "image-resolve-mode".toList ≠ none ↔ s.Pull = true) := by
  have hnone : GoMap.lookup (loopAttrs s) "image-resolve-mode".toList = none :=
    lookup_loopAttrs_scalar s _ (fun x => by simp) (fun x => by simp) (by decide)
  have heq : GoMap.lookup (scalarAttrs lib s (loopAttrs s)) "image-resolve-mode".toList
      = (if s.Pull = true then some "pull".toList else none) := by
    rw [lookup_scalarAttrs_pull, hnone]
  refine ⟨_, frontendAttrs_eq_loopAttrs lib s, heq, ?_⟩
  rw [heq]
  by_cases hp : s.Pull = true
  · rw [if_pos hp]
    exact ⟨fun _ => hp, fun _ => Option.noConfusion⟩
  · rw [if_neg hp]
    exact ⟨fun h => absurd rfl h, fun h => absurd h hp⟩

/-- C12, as stated, fails: in scenario 1, where no target and no file are
given, the map returned by `frontendAttrs` holds the key `target`, mapped to
the empty string, and the key `filename`. -/
theorem scenario1_target_is_empty_string :
    (scenario1 "auto".toList).Target = [] ∧ (scenario1 "auto".toList).File = [] ∧
      (frontendAttrs exampleLib (scenario1 "auto".toList)).map
          (fun m => GoMap.lookup m "target".toList) = some (some []) ∧
      (frontendAttrs exampleLib (scenario1 "auto".toList)).map
          (fun m => GoMap.lookup m "filename".toList) = some (some "Dockerfile".toList) := by
  decide

/-- C12, amended: the map returned by `frontendAttrs` always holds the key
`target`, mapped to `Target` (the empty string when none is given), and the
key `filename`, mapped to the base name of `File` or to `Dockerfile` when
`File` is empty; and every entry of the map is one of these: `target` and
`filename`, with these values; `add-hosts`, only when the comma-join of
`AddHost` is not the empty string, mapped to that join; `image-resolve-mode`,
only when `Pull` is true, mapped to `pull`; `build-arg:<k>` or `label:<k>`,
only when a build argument (a label) has the key `k`, mapped to the text after
the first `=` of such an entry (the empty string when it has none). -/
theorem frontendAttrs_entries (lib : Lib) (s : Build) :
    ∃ m, frontendAttrs lib s = some m ∧
      GoMap.lookup m "target".toList = some s.Target ∧
      GoMap.lookup m "filename".toList
        = some (if s.File = [] then "Dockerfile".toList else lib.Base s.File) ∧
      ∀ k v, GoMap.lookup m k = some v →
        (k = "target".toList ∧ v = s.Target) ∨
        (k = "filename".toList ∧
          v = (if s.File = [] then "Dockerfile".toList else lib.Base s.File)) ∨
        (k = "add-hosts".toList ∧ v = Join s.AddHost ",".toList ∧ v ≠ []) ∨
        (k = "image-resolve-mode".toList ∧ s.Pull = true ∧ v = "pull".toList) ∨
        (∃ b ∈ s.BuildArg, ∃ p0, (SplitN b "=".toList 2).head? = some p0 ∧
          k = "build-arg:".toList ++ p0 ∧
          v = Join ((SplitN b "=".toList 2).drop 1) "=".toList) ∨
        (∃ b ∈ s.Label, ∃ p0, (SplitN b "=".toList 2).head? = some p0 ∧
          k = "label:".toList ++ p0 ∧
          v = Join ((SplitN b "=".toList 2).drop 1) "=".toList) := by
  have htarget : GoMap.lookup (scalarAttrs lib s (loopAttrs s)) "target".toList
      = some s.Target := by
    rw [lookup_scalarAttrs_other _ _ _ _ (by decide) (by decide) (by decide),
      lookup_loopAttrs_other s _ (fun x => by simp) (fun x => by simp)]
    simp only [GoMap.lookup, if_true]
  refine ⟨_, frontendAttrs_eq_loopAttrs lib s, htarget,
    lookup_scalarAttrs_filename lib s _, ?_⟩
  intro k v hkv
  by_cases hf : "filename".toList = k
  · subst hf
    rw [lookup_scalarAttrs_filename] at hkv
    exact Or.inr (Or.inl ⟨rfl, (Option.some.inj hkv).symm⟩)
  by_cases ha : "add-hosts".toList = k
  · subst ha
    have hnone : GoMap.lookup (loopAttrs s) "add-hosts".toList = none :=
      lookup_loopAttrs_scalar s _ (fun x => by simp) (fun x => by simp) (by decide)
    rw [lookup_scalarAttrs_addHosts, hnone] at hkv
    by_cases hj : Join s.AddHost ",".toList = []
    · rw [if_pos hj] at hkv
      cases hkv
    · rw [if_neg hj] at hkv
      have hv : v = Join s.AddHost ",".toList := (Option.some.inj hkv).symm
      exact Or.inr (Or.inr (Or.inl ⟨rfl, hv, hv ▸ hj⟩))
  by_cases hi : "image-resolve-mode".toList = k
  · subst hi
    have hnone : GoMap.lookup (loopAttrs s) "image-resolve-mode".toList = none :=
      lookup_loopAttrs_scalar s _ (fun x => by simp) (fun x => by simp) (by decide)
    rw [lookup_scalarAttrs_pull, hnone] at hkv
    by_cases hp : s.Pull = true
    · rw [if_pos hp] at hkv
      exact Or.inr (Or.inr (Or.inr (Or.inl ⟨rfl, hp, (Option.some.inj hkv).symm⟩)))
    · rw [if_neg hp] at hkv
      cases hkv
  rw [lookup_scalarAttrs_other _ _ _ _ ha hf hi] at hkv
  unfold loopAttrs at hkv
  rcases lookup_assignAll_some _ _ _ _ _ hkv with ⟨b, hb, hk, hv⟩ | h1
  · refine Or.inr (Or.inr (Or.inr (Or.inr (Or.inr ⟨b, hb, argKey b, head_SplitN b, hk, ?_⟩))))
    rw [Join_tail_SplitN, hv]
  · rcases lookup_assignAll_some _ _ _ _ _ h1 with ⟨b, hb, hk, hv⟩ | h2
    · refine Or.inr (Or.inr (Or.inr (Or.inr (Or.inl ⟨b, hb, argKey b, head_SplitN b, hk, ?_⟩))))
      rw [Join_tail_SplitN, hv]
    · by_cases ht : "target".toList = k
      · simp only [GoMap.lookup, if_pos ht] at h2
        exact Or.inl ⟨ht.symm, (Option.some.inj h2).symm⟩
      · simp only [GoMap.lookup, if_neg ht] at h2
        cases h2

/-- C13: the map returned by `localDirs` has exactly the two keys `context`
and `dockerfile`, and `context` is mapped to the context path as given. -/
theorem localDirs_two_keys (lib : Lib) (s : Build) (path : Str) :
    (localDirs lib s path).map Prod.fst = ["context".toList, "dockerfile".toList] ∧
      GoMap.lookup (localDirs lib s path) "context".toList = some path ∧
      localDirs lib s path =
        [("context".toList, path),
         ("dockerfile".toList, if s.File = [] then path else lib.Dir s.File)] := by
  have hne : ¬ "context".toList = "dockerfile".toList := by decide
  have heq : localDirs lib s path =
      [("context".toList, path),
       ("dockerfile".toList, if s.File = [] then path else lib.Dir s.File)] := by
    unfold localDirs
    by_cases h : s.File = []
    · simp only [h, if_true, GoMap.assign, if_neg hne]
    · simp only [h, if_false, GoMap.assign, if_neg hne]
  refine ⟨?_, ?_, heq⟩
  · rw [heq]
    rfl
  · rw [heq]
    simp only [GoMap.lookup, if_true]

/-- C14 does not hold of the code: `defaultExporter`, run on the tags
`myimg:latest` and `bad ref`, leaves `docker.io/library/myimg:latest` in the
first element of the `Tag` list of its receiver, and so does `Do`. -/
theorem defaultExporter_overwrites_Tag :
    mixedTags.Tag = ["myimg:latest".toList, "bad ref".toList] ∧
      (defaultExporter exampleLib mixedTags).2.Tag
        = ["docker.io/library/myimg:latest".toList, "bad ref".toList] ∧
      (defaultExporter exampleLib mixedTags).2 ≠ mixedTags ∧
      (Do exampleLib quietWorld mixedTags "/app".toList).map (fun r => r.build.Tag)
        = some ["docker.io/library/myimg:latest".toList, "bad ref".toList] := by
  decide

/-- C15: in the progress mode `none`, `progress` returns the nil channel and
leaves the error group as it is; in every other mode it returns a channel of
capacity 1 and starts exactly one function in the error group, the call of
`DisplaySolveStatus`.  In `Do` this happens on the empty group, and the
channel and the group that result are the ones in place when `Solve` is
called. -/
theorem progress_channel_and_task (lib : Lib) (w : World) (s : Build) (path : Str)
    (g : ErrGroup) :
    (s.Progress = "none".toList → progress w s g = (none, g)) ∧
    (s.Progress ≠ "none".toList →
      ∃ c, progress w s g
        = (some { cap := 1 }, { tasks := g.tasks ++ [w.DisplaySolveStatus c] })) ∧
    (∃ r, Do lib w s path = some r ∧
      (r.statusCh, r.group) = progress w s { tasks := [] } ∧
      r.group.tasks.length = (if s.Progress = "none".toList then 0 else 1) ∧
      (r.statusCh = none ↔ s.Progress = "none".toList)) := by
  refine ⟨?_, ?_, ?_⟩
  · intro h
    simp only [progress, if_pos h]
  · intro h
    simp only [progress, if_neg h, ErrGroup.Go]
    exact ⟨_, rfl⟩
  · obtain ⟨r, hr, -, -, -, -, hprog⟩ := Do_eq lib w s path
    refine ⟨r, hr, hprog, ?_, ?_⟩
    · have hg := congrArg Prod.snd hprog
      simp only at hg
      rw [hg]
      by_cases h : s.Progress = "none".toList
      · simp only [progress, if_pos h, List.length_nil]
      · simp only [progress, if_neg h, ErrGroup.Go, List.nil_append, List.length_singleton]
    · have hc := congrArg Prod.fst hprog
      simp only at hc
      rw [hc]
      by_cases h : s.Progress = "none".toList
      · have hch : (progress w s { tasks := [] }).1 = none := by
          simp only [progress, if_pos h]
        rw [hch]
        exact ⟨fun _ => h, fun _ => rfl⟩
      · have hch : (progress w s { tasks := [] }).1 = some { cap := 1 } := by
          simp only [progress, if_neg h]
        rw [hch]
        exact ⟨fun e => Option.noConfusion e, fun e => absurd e h⟩

/-- The run of `Do` calls `eg.Wait()` exactly when `Solve` returns no error. -/
theorem Do_waited_iff (lib : Lib) (w : World) (s : Build) (path : Str) :
    ∃ r, Do lib w s path = some r ∧
      (r.waited = true ↔ w.Solve r.options r.statusCh = none) := by
  obtain ⟨s1, h1, -⟩ := Do_options_eq lib s path
  unfold Do
  rw [h1]
  simp only
  cases hs : w.Solve _ (progress w s1 { tasks := [] }).1 with
  | some err =>
    refine ⟨_, rfl, ?_⟩
    simp only [hs]
    exact ⟨fun e => Bool.noConfusion e, fun e => Option.noConfusion e⟩
  | none =>
    cases hw : (progress w s1 { tasks := [] }).2.Wait with
    | some err =>
      refine ⟨_, rfl, ?_⟩
      simp only [hs]
    | none =>
      refine ⟨_, rfl, ?_⟩
      simp only [hs]

/-- C16 does not hold of the code: in the progress mode `plain`, with a `Solve`
that fails, `Do` starts the relay in the error group and returns the error of
`Solve` without a call of `eg.Wait()`, that is without waiting for the relay
to complete. -/
theorem Do_solve_error_skips_Wait :
    (Do exampleLib failingSolveWorld (scenario1 "plain".toList) "/app".toList).map
        (fun r => (r.err, r.waited, r.group.tasks.length, r.statusCh))
      = some (some { msg := "failed to solve".toList }, false, 1, some { cap := 1 }) := by
  decide

/-- C17: with fewer than two arguments `Run` returns the error
`at least two arguments are required`, resolves no client and does not call
the tag operation; with two or more it resolves the client and either returns
the error of that step as it is, or calls the tag operation with the first
argument as the source and all the others, in order and at least one, as the
targets, and returns its result. -/
theorem Run_arguments (w : TagWorld) (args : List Str) :
    (args.length < 2 →
      CommandSpec.Run w args =
        some { resolved := false, tagCall := none,
               err := some { msg := "at least two arguments are required".toList } }) ∧
    (2 ≤ args.length →
      ∃ src targets, args = src :: targets ∧ targets ≠ [] ∧
        CommandSpec.Run w args =
          some (match w.Interface with
            | .error err => { resolved := true, tagCall := none, err := some err }
            | .ok k8s => { resolved := true, tagCall := some (src, targets),
                           err := w.TagDo k8s src targets })) := by
  constructor
  · intro h
    simp only [CommandSpec.Run, if_pos h]
  · intro h
    match args, h with
    | src :: t :: rest, _ =>
      refine ⟨src, t :: rest, rfl, by simp, ?_⟩
      have hlen : ¬ (src :: t :: rest).length < 2 := by simp
      simp only [CommandSpec.Run, if_neg hlen]
      cases w.Interface with
      | error err => rfl
      | ok k8s => rfl

/-- C18: for a non-empty tag list `defaultExporter` returns one entry of the
image type whose `name-canonical` is the empty string and whose `name` is the
comma-join of exactly `len(Tag)` items in the order of the tags, the item of
a tag being its normalized form when it parses and the tag itself when it does
not. -/
theorem defaultExporter_entry (lib : Lib) (s : Build) (h : s.Tag ≠ []) :
    ∃ items : List Str, items.length = s.Tag.length ∧
      (∀ (i : Nat) (tag : Str), s.Tag[i]? = some tag →
        items[i]? = some (match lib.ParseNormalizedNamed tag with
          | .error _ => tag
          | .ok ref => ref)) ∧
      (defaultExporter lib s).1 =
        [{ Type_ := ExporterImage,
           Attrs := [("name".toList, Join items ",".toList),
                     ("name-canonical".toList, [])] }] := by
  refine ⟨s.Tag.map (normalizeOrKeep lib), by simp, ?_, ?_⟩
  · intro i tag hi
    rw [List.getElem?_map, hi]
    rfl
  · rw [defaultExporter_eq lib s h]

/-- Scenario 2 of the specification as an instance of `defaultExporter_entry`. -/
theorem defaultExporter_entry_witness :
    mixedTags.Tag ≠ [] ∧
      ∃ items : List Str, items.length = mixedTags.Tag.length ∧
        (∀ (i : Nat) (tag : Str), mixedTags.Tag[i]? = some tag →
          items[i]? = some (match exampleLib.ParseNormalizedNamed tag with
            | .error _ => tag
            | .ok ref => ref)) ∧
        (defaultExporter exampleLib mixedTags).1 =
          [{ Type_ := ExporterImage,
             Attrs := [("name".toList, Join items ",".toList),
                       ("name-canonical".toList, [])] }] :=
  ⟨by decide, defaultExporter_entry exampleLib mixedTags (by decide)⟩

/-- C19: when an entry with the key `k` is the last build argument (label) with
that key, the map returned by `frontendAttrs` holds `build-arg:k` (`label:k`)
exactly once, mapped to the text after the first `=` of that entry, whatever
entries with the same key come before it. -/
theorem frontendAttrs_last_entry_wins (lib : Lib) (s : Build) (e k : Str)
    (init rest : List Str)
    (hk : (SplitN e "=".toList 2).head? = some k)
    (hrest : ∀ b ∈ rest, (SplitN b "=".toList 2).head? ≠ some k) :
    (s.BuildArg = init ++ e :: rest →
      ∃ m, frontendAttrs lib s = some m ∧
        GoMap.lookup m ("build-arg:".toList ++ k)
          = some (Join ((SplitN e "=".toList 2).drop 1) "=".toList) ∧
        GoMap.occurrences m ("build-arg:".toList ++ k) = 1) ∧
    (s.Label = init ++ e :: rest →
      ∃ m, frontendAttrs lib s = some m ∧
        GoMap.lookup m ("label:".toList ++ k)
          = some (Join ((SplitN e "=".toList 2).drop 1) "=".toList) ∧
        GoMap.occurrences m ("label:".toList ++ k) = 1) := by
  have hkey : argKey e = k := by
    rw [head_SplitN] at hk
    exact Option.some.inj hk
  have hlater : ∀ b ∈ rest, argKey b ≠ argKey e := by
    intro b hb h
    apply hrest b hb
    rw [head_SplitN, h, hkey]
  constructor
  · intro hs
    have hl := lookup_buildArg lib s e init rest hs hlater
    rw [hkey] at hl
    refine ⟨_, frontendAttrs_eq_loopAttrs lib s, ?_, ?_⟩
    · rw [Join_tail_SplitN]
      exact hl
    · exact GoMap.occurrences_eq_one _ _ _ (nodup_keys_frontendAttrs lib s) hl
  · intro hs
    have hl := lookup_label lib s e init rest hs hlater
    rw [hkey] at hl
    refine ⟨_, frontendAttrs_eq_loopAttrs lib s, ?_, ?_⟩
    · rw [Join_tail_SplitN]
      exact hl
    · exact GoMap.occurrences_eq_one _ _ _ (nodup_keys_frontendAttrs lib s) hl

/-- The entry `k=v1=v2`, preceded by `k=old` with the same key. -/
theorem frontendAttrs_last_entry_wins_witness :
    (SplitN "k=v1=v2".toList "=".toList 2).head? = some "k".toList ∧
      (∀ b ∈ ["other=1".toList], (SplitN b "=".toList 2).head? ≠ some "k".toList) ∧
      (∃ m, frontendAttrs exampleLib repeatedKey = some m ∧
        GoMap.lookup m ("build-arg:".toList ++ "k".toList)
          = some (Join ((SplitN "k=v1=v2".toList "=".toList 2).drop 1) "=".toList) ∧
        GoMap.occurrences m ("build-arg:".toList ++ "k".toList) = 1) ∧
      (∃ m, frontendAttrs exampleLib repeatedKey = some m ∧
        GoMap.lookup m ("label:".toList ++ "k".toList)
          = some (Join ((SplitN "k=v1=v2".toList "=".toList 2).drop 1) "=".toList) ∧
        GoMap.occurrences m ("label:".toList ++ "k".toList) = 1) :=
  ⟨by decide, by decide,
    (frontendAttrs_last_entry_wins exampleLib repeatedKey "k=v1=v2".toList "k".toList
      ["k=old".toList] ["other=1".toList] (by decide) (by decide)).1 rfl,
    (frontendAttrs_last_entry_wins exampleLib repeatedKey "k=v1=v2".toList "k".toList
      ["k=old".toList] ["other=1".toList] (by decide) (by decide)).2 rfl⟩

/-- C20: the split of any entry at its first `=` has at least one part (the
empty string splits into the one part `""`, an entry `=v` into the parts `""`
and `v`), so `p[0]` is in bounds in every pass of the two loops and
`frontendAttrs` returns a map for every configuration. -/
theorem frontendAttrs_total (lib : Lib) (s : Build) :
    (∀ b : Str, 1 ≤ (SplitN b "=".toList 2).length ∧
      ∃ p0, (SplitN b "=".toList 2)[0]? = some p0) ∧
    SplitN [] "=".toList 2 = [[]] ∧
    (∀ v : Str, SplitN ('=' :: v) "=".toList 2 = [[], v]) ∧
    (∀ (pfx : Str) (m : GoMap) (b : Str), ∃ m1, attrStep pfx m b = some m1) ∧
    ∃ m, frontendAttrs lib s = some m := by
  refine ⟨?_, ?_, ?_, ?_, ⟨_, frontendAttrs_eq_loopAttrs lib s⟩⟩
  · intro b
    rw [SplitN_eq]
    by_cases h : '=' ∈ b
    · simp [h]
    · simp [h]
  · rw [SplitN_eq]
    simp
  · intro v
    rw [SplitN_eq]
    simp [argKey, argVal, List.takeWhile_cons, List.dropWhile_cons]
  · intro pfx m b
    exact ⟨_, attrStep_eq pfx m b⟩

end Kim
